import Mathlib

/-!
Verification of the Study Buddy client-side search subsystem
(`script.js`, canonical revision: `SearchHandler.searchContent`,
`SearchHandler.highlightText`, `AppState.loadPreferences` /
`AppState.savePreferences`).

The JavaScript is shallowly embedded: strings are Lean `String`s
manipulated through structural functions on their character lists, so
every definition evaluates by kernel reduction.  Where the source uses a
library facility (`String.prototype.includes`, `Array.prototype.sort`,
`split(/\s+/)`), the embedding defines the ECMAScript-specified
semantics of that facility.
-/

/-! ## JavaScript string primitives -/

/-- Character class of the ECMAScript `\s` regex escape (WhiteSpace and
LineTerminator): used by `query.split(/\s+/)`. -/
def jsWhitespace (c : Char) : Bool :=
  c = ' ' || c = '\t' || c = '\n' || c = '\r' || c = '\x0b' || c = '\x0c' ||
  c = '\u00A0' || c = '\u1680' || ('\u2000' ≤ c && c ≤ '\u200A') ||
  c = '\u2028' || c = '\u2029' || c = '\u202F' || c = '\u205F' ||
  c = '\u3000' || c = '\uFEFF'

/-- Embedding of `String.prototype.toLowerCase()` (the catalog and the
queries exercised concretely are basic-latin, where `Char.toLower`
agrees with ECMAScript). -/
def lowerStr (s : String) : String := ⟨s.data.map Char.toLower⟩

/-- Embedding of `haystack.startsWith(needle)`. -/
def strStartsWith (hay pre : String) : Bool := pre.data.isPrefixOf hay.data

/-- Occurrence of `needle` as a contiguous subsequence of `hay`
(helper for `strIncludes`). -/
def subOccurs (needle : List Char) : List Char → Bool
  | [] => needle.isEmpty
  | c :: rest => needle.isPrefixOf (c :: rest) || subOccurs needle rest

/-- Embedding of `haystack.includes(needle)`. -/
def strIncludes (hay needle : String) : Bool := subOccurs needle.data hay.data

/-- Embedding of `parts.join(sep)` (`Array.prototype.join`). -/
def joinWith (sep : String) : List String → String
  | [] => ""
  | [k] => k
  | k :: ks => k ++ sep ++ joinWith sep ks

/-! ## Configuration (`Config` object, script.js lines 7-15) -/

/-- Source: `SEARCH_RESULT_LIMIT: 10`. -/
def SEARCH_RESULT_LIMIT : Nat := 10

/-- Source: `STORAGE_KEY: 'studyBuddyPrefs'`. -/
def STORAGE_KEY : String := "studyBuddyPrefs"

/-! ## Tokenizer (`searchContent`, first line)

`query.toLowerCase().split(/\s+/).filter(term => term.length > 1)`.
`split(/\s+/)` splits at maximal runs of whitespace; splitting at every
single whitespace character instead only introduces extra empty pieces
between adjacent separators, and every empty piece is removed by the
`length > 1` filter, so the composite `tokenizeQuery` is exactly the
source's term list. -/

/-- Split a character list at whitespace characters, accumulating the
current (reversed) piece. -/
def splitWsAux (cur : List Char) : List Char → List String
  | [] => [⟨cur.reverse⟩]
  | c :: cs =>
    if jsWhitespace c then ⟨cur.reverse⟩ :: splitWsAux [] cs
    else splitWsAux (c :: cur) cs

/-- Split a string at whitespace characters. -/
def splitWs (s : String) : List String := splitWsAux [] s.data

/-- The tokenizer: lowercase, split on whitespace, keep only terms of
length at least 2. -/
def tokenizeQuery (query : String) : List String :=
  (splitWs (lowerStr query)).filter (fun term => term.length > 1)

/-! ## Record store (`loadSearchData`) -/

/-- One searchable catalog entry, exactly the object shape of the
`searchData` literals. -/
structure SearchRecord where
  title : String
  description : String
  category : String
  page : String
  keywords : List String
deriving DecidableEq

/-- A catalog entry together with its computed relevance score
(the `{ ...item, score }` spread in `searchContent`). -/
structure ScoredRecord where
  item : SearchRecord
  score : Nat
deriving DecidableEq

/-- The record titled "Pomodoro Technique" (High School block). -/
def pomodoroRecord : SearchRecord :=
  { title := "Pomodoro Technique"
    description := "Study for 25 minutes then 5-minute break"
    category := "High School"
    page := "highschool.html"
    keywords := ["focus", "timer", "productivity", "breaks"] }

/-- The record titled "Academic Balance" (University block); it lists
"pomodoro" among its keywords. -/
def academicBalanceRecord : SearchRecord :=
  { title := "Academic Balance"
    description := "Combine mental breaks with focused study sessions"
    category := "University"
    page := "university.html"
    keywords := ["balance", "wellness", "breaks", "pomodoro"] }

/-- The fixed catalog assigned by `loadSearchData()`, in source order. -/
def searchData : List SearchRecord :=
  [ { title := "Sing & Rhyme"
      description := "Turn lessons into songs to improve retention and make learning fun"
      category := "Elementary", page := "elementary.html"
      keywords := ["music", "memory", "songs", "retention"] }
  , { title := "Colorful Flashcards"
      description := "Use colors and images for vocabulary and facts"
      category := "Elementary", page := "elementary.html"
      keywords := ["visual", "memory", "colors", "vocabulary"] }
  , { title := "Short Sessions"
      description := "Study for 15-25 minutes then take breaks"
      category := "Elementary", page := "elementary.html"
      keywords := ["focus", "breaks", "time management"] }
  , { title := "Read Aloud"
      description := "Reading aloud helps comprehension and memory"
      category := "Elementary", page := "elementary.html"
      keywords := ["reading", "comprehension"] }
  , { title := "Cornell Notes"
      description := "Organize lectures into cues, notes, and summaries"
      category := "High School", page := "highschool.html"
      keywords := ["notes", "organization", "lectures", "review"] }
  , { title := "Mnemonics"
      description := "Use memory devices for sequences like PEMDAS"
      category := "High School", page := "highschool.html"
      keywords := ["memory", "tricks", "sequences"] }
  , { title := "Mind Maps"
      description := "Connect ideas visually to improve understanding"
      category := "High School", page := "highschool.html"
      keywords := ["visual", "connections", "diagrams"] }
  , pomodoroRecord
  , { title := "Flashcard Apps"
      description := "Use Anki or Quizlet for spaced repetition"
      category := "High School", page := "highschool.html"
      keywords := ["apps", "technology", "spaced repetition", "anki", "quizlet"] }
  , { title := "Study Groups"
      description := "Explain concepts to peers to deepen comprehension"
      category := "High School", page := "highschool.html"
      keywords := ["collaboration", "peers", "teaching"] }
  , { title := "Past Papers"
      description := "Practice with old exam formats under timed conditions"
      category := "High School", page := "highschool.html"
      keywords := ["practice", "exams", "testing"] }
  , { title := "Career Mapping"
      description := "Identify pathways early using interest inventories"
      category := "Senior High", page := "seniorhigh.html"
      keywords := ["career", "planning", "future"] }
  , { title := "Time Blocking"
      description := "Plan fixed hours for subjects and rest"
      category := "Senior High", page := "seniorhigh.html"
      keywords := ["schedule", "time management", "planning"] }
  , { title := "Mock Interviews"
      description := "Practice responses with peers for confidence"
      category := "Senior High", page := "seniorhigh.html"
      keywords := ["interview", "practice", "career"] }
  , { title := "Digital Literacy"
      description := "Learn Google Suite, Excel, and Canva basics"
      category := "Senior High", page := "seniorhigh.html"
      keywords := ["technology", "digital", "tools", "google", "excel", "canva"] }
  , { title := "Portfolio Building"
      description := "Compile best works, certificates, and achievements"
      category := "Senior High", page := "seniorhigh.html"
      keywords := ["portfolio", "achievements", "career"] }
  , { title := "Research Databases"
      description := "Master JSTOR, Google Scholar, and library access"
      category := "University", page := "university.html"
      keywords := ["research", "academic", "databases", "jstor", "scholar"] }
  , { title := "Citation Managers"
      description := "Use Zotero, Mendeley, or EndNote for references"
      category := "University", page := "university.html"
      keywords := ["citations", "references", "zotero", "mendeley"] }
  , { title := "Critical Reading"
      description := "Evaluate sources, analyze arguments, identify biases"
      category := "University", page := "university.html"
      keywords := ["reading", "analysis", "critical thinking"] }
  , { title := "Thesis Planning"
      description := "Outline research chapters early with timeline"
      category := "University", page := "university.html"
      keywords := ["thesis", "research", "planning", "writing"] }
  , academicBalanceRecord ]

/-! ## Scorer (body of the `map` in `searchContent`) -/

/-- One iteration of the `searchTerms.forEach(term => ...)` loop: add
this term's bonuses to the running score.  The four arguments are the
pre-lowered `titleLower`, `descLower`, `keywordsLower`,
`categoryLower`. -/
def scoreStep (titleLower descLower keywordsLower categoryLower : String)
    (score : Nat) (term : String) : Nat :=
  let score :=
    if titleLower = term then score + 100
    else if strStartsWith titleLower term then score + 75
    else if strIncludes titleLower term then score + 50
    else score
  let score := if strIncludes descLower term then score + 30 else score
  let score := if strIncludes keywordsLower term then score + 25 else score
  if strIncludes categoryLower term then score + 15 else score

/-- The per-record score: `let score = 0; searchTerms.forEach(...)`. -/
def scoreRecord (searchTerms : List String) (item : SearchRecord) : Nat :=
  searchTerms.foldl
    (scoreStep (lowerStr item.title) (lowerStr item.description)
      (lowerStr (joinWith " " item.keywords)) (lowerStr item.category))
    0

/-! ## Stable descending sort (`.sort((a, b) => b.score - a.score)`)

ECMAScript's `Array.prototype.sort` is required to be stable; with the
comparator `b.score - a.score` the result is the unique stable
non-increasing reordering by score.  It is embedded as a stable
insertion sort, generic in the score projection so the same code sorts
index-instrumented lists. -/

/-- Insert `a` in front of the first element whose score is at most
`sc a` (so an earlier element keeps its place among equal scores). -/
def insertByScore {α : Type} (sc : α → Nat) (a : α) : List α → List α
  | [] => [a]
  | b :: l => if sc b ≤ sc a then a :: b :: l else b :: insertByScore sc a l

/-- Stable insertion sort, non-increasing in `sc`. -/
def sortByScoreDesc {α : Type} (sc : α → Nat) : List α → List α
  | [] => []
  | x :: xs => insertByScore sc x (sortByScoreDesc sc xs)

/-! ## Ranker (`searchContent`) -/

/-- Embedding of `SearchHandler.searchContent(query)`, with the record
store `this.searchData` passed explicitly. -/
def searchContent (data : List SearchRecord) (query : String) :
    List ScoredRecord :=
  let searchTerms := tokenizeQuery query
  if searchTerms.length = 0 then []
  else
    ((sortByScoreDesc (fun r => r.score)
      (((data.map (fun item =>
          ScoredRecord.mk item (scoreRecord searchTerms item)))).filter
        (fun item => item.score > 0))).take SEARCH_RESULT_LIMIT)

/-- The same pipeline with every record carrying its catalog index, used
to state stability; `searchContent` is its projection (proved below). -/
def searchContentIdx (data : List SearchRecord) (query : String) :
    List (Nat × ScoredRecord) :=
  let searchTerms := tokenizeQuery query
  if searchTerms.length = 0 then []
  else
    ((sortByScoreDesc (fun p => p.2.score)
      ((data.enum.map (fun p =>
          (p.1, ScoredRecord.mk p.2 (scoreRecord searchTerms p.2)))).filter
        (fun p => p.2.score > 0))).take SEARCH_RESULT_LIMIT)

/-! ## Basic lemmas about the scorer and the ranker -/

/-- A scoring-loop iteration adds its term's bonuses to the running
score. -/
theorem scoreStep_add (t d k c : String) (s : Nat) (term : String) :
    scoreStep t d k c s term = s + scoreStep t d k c 0 term := by
  simp only [scoreStep]
  repeat' split
  all_goals omega

/-- The scoring fold is the initial value plus the sum of per-term
contributions. -/
theorem foldl_scoreStep (t d k c : String) (terms : List String) :
    ∀ init : Nat,
      terms.foldl (scoreStep t d k c) init
        = init + (terms.map (scoreStep t d k c 0)).sum := by
  induction terms with
  | nil => intro init; simp
  | cons hd tl ih =>
    intro init
    simp only [List.foldl_cons, List.map_cons, List.sum_cons]
    rw [ih, scoreStep_add]
    omega

/-- Per-term score as the specification words it: one of the three
title tiers (exact 100 / prefix 75 / substring 50), plus independent
description (30), joined-keyword (25) and category (15) bonuses.  This
definition follows the spec text and is compared against the source's
`scoreRecord` in the claim-C1 theorem. -/
def specTermScore (item : SearchRecord) (term : String) : Nat :=
  (if lowerStr item.title = term then 100
   else if strStartsWith (lowerStr item.title) term then 75
   else if strIncludes (lowerStr item.title) term then 50
   else 0)
  + (if strIncludes (lowerStr item.description) term then 30 else 0)
  + (if strIncludes (lowerStr (joinWith " " item.keywords)) term then 25 else 0)
  + (if strIncludes (lowerStr item.category) term then 15 else 0)

/-- A single loop iteration started from 0 yields exactly the
specification's per-term bonus sum. -/
theorem scoreStep_zero_eq_spec (item : SearchRecord) (term : String) :
    scoreStep (lowerStr item.title) (lowerStr item.description)
      (lowerStr (joinWith " " item.keywords)) (lowerStr item.category) 0 term
      = specTermScore item term := by
  by_cases h1 : lowerStr item.title = term <;>
  by_cases h2 : strStartsWith (lowerStr item.title) term = true <;>
  by_cases h3 : strIncludes (lowerStr item.title) term = true <;>
  by_cases h4 : strIncludes (lowerStr item.description) term = true <;>
  by_cases h5 : strIncludes (lowerStr (joinWith " " item.keywords)) term = true <;>
  by_cases h6 : strIncludes (lowerStr item.category) term = true <;>
  simp [scoreStep, specTermScore, h1, h2, h3, h4, h5, h6]

/-- Claim C1: the score computed by `searchContent`'s per-record loop
equals the sum, over each term independently, of the spec's bonuses:
100 for an exact lowercased-title match, else 75 for a title prefix,
else 50 for a title substring, plus (independently) 30 for a
description substring, 25 for a joined-keyword substring and 15 for a
category substring. -/
theorem c1_score_is_sum_of_term_bonuses (item : SearchRecord)
    (terms : List String) :
    scoreRecord terms item = (terms.map (specTermScore item)).sum := by
  unfold scoreRecord
  rw [foldl_scoreStep]
  rw [List.map_congr_left (fun term _ => scoreStep_zero_eq_spec item term)]
  omega

/-- Claim C3: a query whose tokenization yields zero qualifying terms
(empty, whitespace-only, or only length-1 tokens) makes `searchContent`
return the empty list. -/
theorem c3_no_terms_empty_result (data : List SearchRecord) (query : String)
    (h : tokenizeQuery query = []) : searchContent data query = [] := by
  simp [searchContent, h]

/-- Witness for claim C3 at the concrete query `" a b c "` (every token
has length 1) against the real catalog. -/
theorem c3_witness :
    tokenizeQuery " a b c " = [] ∧ searchContent searchData " a b c " = [] :=
  ⟨by decide, c3_no_terms_empty_result searchData " a b c " (by decide)⟩

/-- Membership in an insertion step. -/
theorem mem_insertByScore {α : Type} (sc : α → Nat) (a x : α) (l : List α) :
    x ∈ insertByScore sc a l ↔ x = a ∨ x ∈ l := by
  induction l with
  | nil => simp [insertByScore]
  | cons b t ih =>
    simp only [insertByScore]
    split
    · simp [List.mem_cons]
    · simp [List.mem_cons, ih]
      tauto

/-- The sort permutes, hence preserves, membership. -/
theorem mem_sortByScoreDesc {α : Type} (sc : α → Nat) (x : α) (l : List α) :
    x ∈ sortByScoreDesc sc l ↔ x ∈ l := by
  induction l with
  | nil => simp [sortByScoreDesc]
  | cons b t ih =>
    simp [sortByScoreDesc, mem_insertByScore, ih, List.mem_cons]

/-- Claim C4: every record returned by `searchContent` has a strictly
positive score. -/
theorem c4_scores_positive (data : List SearchRecord) (query : String)
    (r : ScoredRecord) (h : r ∈ searchContent data query) : 0 < r.score := by
  simp only [searchContent] at h
  split at h
  · simp at h
  · have h1 := List.mem_of_mem_take h
    rw [mem_sortByScoreDesc] at h1
    have h2 := (List.mem_filter.mp h1).2
    simpa using h2

/-- Witness for claim C4: the "Pomodoro Technique" result of the query
`"pomodoro"` has positive score. -/
theorem c4_witness :
    ScoredRecord.mk pomodoroRecord 75 ∈ searchContent searchData "pomodoro" ∧
    0 < (ScoredRecord.mk pomodoroRecord 75).score :=
  ⟨by decide, c4_scores_positive searchData "pomodoro" _ (by decide)⟩

/-- Claim C5: the ranked output never exceeds `SEARCH_RESULT_LIMIT`
(10) records. -/
theorem c5_result_limit (data : List SearchRecord) (query : String) :
    (searchContent data query).length ≤ SEARCH_RESULT_LIMIT := by
  simp only [searchContent]
  split
  · simp
  · rw [List.length_take]
    exact min_le_left _ _

/-- Claim C7: `searchContent` is deterministic — identical catalog and
query inputs produce identical output, with no other dependence. -/
theorem c7_deterministic (d1 d2 : List SearchRecord) (q1 q2 : String)
    (hd : d1 = d2) (hq : q1 = q2) : searchContent d1 q1 = searchContent d2 q2 := by
  subst hd; subst hq; rfl

/-- Witness for claim C7 at the concrete catalog and query. -/
theorem c7_witness :
    searchData = searchData ∧ ("pomodoro" : String) = "pomodoro" ∧
    searchContent searchData "pomodoro" = searchContent searchData "pomodoro" :=
  ⟨rfl, rfl, c7_deterministic searchData searchData "pomodoro" "pomodoro" rfl rfl⟩

/-- Claim C8: for the loaded catalog and the query "pomodoro", the
"Pomodoro Technique" record lands in the starts-with tier (75, not the
exact-match 100, since its full lowercased title differs from the
term), "Academic Balance" gets the keyword bonus (25), both appear in
the output, and the title-matching record is ranked first. -/
theorem c8_pomodoro_scenario :
    lowerStr pomodoroRecord.title ≠ "pomodoro" ∧
    strStartsWith (lowerStr pomodoroRecord.title) "pomodoro" = true ∧
    scoreRecord ["pomodoro"] pomodoroRecord = 75 ∧
    strIncludes (lowerStr (joinWith " " academicBalanceRecord.keywords))
      "pomodoro" = true ∧
    scoreRecord ["pomodoro"] academicBalanceRecord = 25 ∧
    searchContent searchData "pomodoro" =
      [ScoredRecord.mk pomodoroRecord 75,
       ScoredRecord.mk academicBalanceRecord 25] :=
  ⟨by decide, by decide, by decide, by decide, by decide, by decide⟩

/-! ## Sortedness and stability of the ranking -/

/-- Filtering after a map is mapping after a transported filter. -/
theorem filter_map_comm {α β : Type} (f : α → β) (p : β → Bool)
    (l : List α) :
    (l.map f).filter p = (l.filter (fun a => p (f a))).map f := by
  induction l with
  | nil => rfl
  | cons x xs ih =>
    simp only [List.map_cons, List.filter_cons]
    by_cases h : p (f x) = true <;> simp [h, ih]

/-- Projecting the payloads back out of an enumeration. -/
theorem enumFrom_map_snd {α : Type} (n : Nat) (l : List α) :
    (List.enumFrom n l).map Prod.snd = l := by
  induction l generalizing n with
  | nil => rfl
  | cons x xs ih => simp [List.enumFrom, ih]

/-- Every index produced by `enumFrom n` is at least `n`. -/
theorem enumFrom_le_fst {α : Type} (n : Nat) (l : List α) :
    ∀ q ∈ List.enumFrom n l, n ≤ q.1 := by
  induction l generalizing n with
  | nil => simp
  | cons x xs ih =>
    intro q hq
    simp only [List.enumFrom, List.mem_cons] at hq
    rcases hq with rfl | hq
    · exact Nat.le_refl n
    · exact Nat.le_of_succ_le (ih (n + 1) q hq)

/-- Enumeration indices are strictly increasing along the list. -/
theorem pairwise_fst_lt_enumFrom {α : Type} (n : Nat) (l : List α) :
    (List.enumFrom n l).Pairwise (fun p q => p.1 < q.1) := by
  induction l generalizing n with
  | nil => simp
  | cons x xs ih =>
    simp only [List.enumFrom]
    refine List.pairwise_cons.mpr ⟨?_, ih (n + 1)⟩
    intro q hq
    exact Nat.lt_of_succ_le (enumFrom_le_fst (n + 1) xs q hq)

/-- Insertion commutes with mapping when the score projection factors
through the map. -/
theorem map_insertByScore {α β : Type} (f : β → α) (sc : α → Nat) (a : β)
    (l : List β) :
    insertByScore sc (f a) (l.map f)
      = (insertByScore (fun b => sc (f b)) a l).map f := by
  induction l with
  | nil => rfl
  | cons b t ih =>
    simp only [List.map_cons, insertByScore]
    by_cases h : sc (f b) ≤ sc (f a) <;> simp [h, ih]

/-- The stable sort commutes with mapping when the score projection
factors through the map. -/
theorem map_sortByScoreDesc {α β : Type} (f : β → α) (sc : α → Nat)
    (l : List β) :
    sortByScoreDesc sc (l.map f)
      = (sortByScoreDesc (fun b => sc (f b)) l).map f := by
  induction l with
  | nil => rfl
  | cons x xs ih => simp only [List.map_cons, sortByScoreDesc, ih, map_insertByScore]

/-- Inserting an element whose index is below every index in a sorted
list keeps the list sorted-and-stable: scores non-increasing, and
indices increasing among equal scores. -/
theorem pairwise_insertByScore {α : Type} (sc idx : α → Nat) (a : α)
    (l : List α) (ha : ∀ b ∈ l, idx a < idx b)
    (hl : l.Pairwise (fun x y => sc y ≤ sc x ∧ (sc x = sc y → idx x < idx y))) :
    (insertByScore sc a l).Pairwise
      (fun x y => sc y ≤ sc x ∧ (sc x = sc y → idx x < idx y)) := by
  induction l with
  | nil => simp [insertByScore]
  | cons b t ih =>
    rcases List.pairwise_cons.mp hl with ⟨hb, ht⟩
    simp only [insertByScore]
    split
    case isTrue hc =>
      refine List.pairwise_cons.mpr ⟨?_, hl⟩
      intro c hcmem
      rcases List.mem_cons.mp hcmem with rfl | hct
      · exact ⟨hc, fun _ => ha c (List.mem_cons_self _ _)⟩
      · exact ⟨Nat.le_trans (hb c hct).1 hc,
          fun _ => ha c (List.mem_cons.mpr (Or.inr hct))⟩
    case isFalse hc =>
      refine List.pairwise_cons.mpr
        ⟨?_, ih (fun x hx => ha x (List.mem_cons.mpr (Or.inr hx))) ht⟩
      intro c hcmem
      rcases (mem_insertByScore sc a c t).mp hcmem with rfl | hct
      · refine ⟨Nat.le_of_lt (Nat.lt_of_not_le hc), fun he => ?_⟩
        exact absurd (he ▸ Nat.lt_of_not_le hc) (Nat.lt_irrefl _)
      · exact hb c hct

/-- Sorting a list with strictly increasing indices yields a
sorted-and-stable list. -/
theorem pairwise_sortByScoreDesc {α : Type} (sc idx : α → Nat) (l : List α)
    (h : l.Pairwise (fun x y => idx x < idx y)) :
    (sortByScoreDesc sc l).Pairwise
      (fun x y => sc y ≤ sc x ∧ (sc x = sc y → idx x < idx y)) := by
  induction l with
  | nil => simp [sortByScoreDesc]
  | cons x xs ih =>
    rcases List.pairwise_cons.mp h with ⟨hx, hxs⟩
    simp only [sortByScoreDesc]
    refine pairwise_insertByScore sc idx x _ ?_ (ih hxs)
    intro b hb
    exact hx b ((mem_sortByScoreDesc sc b xs).mp hb)

/-- Projecting the payloads out of the index-instrumented
take-sort-filter-map pipeline recovers the plain pipeline. -/
theorem pipeline_proj {α β : Type} (N : Nat) (sc : β → Nat) (p : β → Bool)
    (f : α → β) (l : List α) :
    (List.take N (sortByScoreDesc (fun q => sc q.2)
        (List.filter (fun q => p q.2)
          (List.map (fun q : Nat × α => (q.1, f q.2)) l.enum)))).map Prod.snd
      = List.take N (sortByScoreDesc sc (List.filter p (l.map f))) := by
  rw [List.map_take]
  congr 1
  rw [← map_sortByScoreDesc Prod.snd sc]
  congr 1
  rw [← filter_map_comm Prod.snd p]
  congr 1
  rw [List.map_map]
  show List.map (f ∘ Prod.snd) l.enum = List.map f l
  rw [← List.map_map]
  congr 1
  exact enumFrom_map_snd 0 l

/-- Claim C2: the ranked output is sorted non-increasing by score, and
equal-score records keep their catalog order.  Stability is stated
through the index-instrumented pipeline `searchContentIdx`, of which
`searchContent` is proved to be the payload projection. -/
theorem c2_sorted_and_stable (data : List SearchRecord) (query : String) :
    searchContent data query = (searchContentIdx data query).map Prod.snd ∧
    (searchContentIdx data query).Pairwise
      (fun a b => b.2.score ≤ a.2.score ∧ (a.2.score = b.2.score → a.1 < b.1)) ∧
    (searchContent data query).Pairwise (fun a b => b.score ≤ a.score) := by
  have hpair :
      (searchContentIdx data query).Pairwise
        (fun a b => b.2.score ≤ a.2.score ∧ (a.2.score = b.2.score → a.1 < b.1)) := by
    simp only [searchContentIdx]
    split
    · simp
    · refine List.Pairwise.sublist (List.take_sublist _ _) ?_
      refine pairwise_sortByScoreDesc (fun p : Nat × ScoredRecord => p.2.score)
        (fun p : Nat × ScoredRecord => p.1) _ ?_
      refine List.Pairwise.filter _ ?_
      rw [List.pairwise_map]
      exact pairwise_fst_lt_enumFrom 0 data
  have hproj :
      searchContent data query = (searchContentIdx data query).map Prod.snd := by
    simp only [searchContent, searchContentIdx]
    split
    · simp
    · exact (pipeline_proj SEARCH_RESULT_LIMIT (fun r => r.score)
        (fun r => decide (r.score > 0))
        (fun item => ScoredRecord.mk item (scoreRecord (tokenizeQuery query) item))
        data).symm
  refine ⟨hproj, hpair, ?_⟩
  rw [hproj, List.pairwise_map]
  exact hpair.imp (fun h => h.1)

/-! ## Tokenizer properties -/

/-- Lowercasing a character never yields an uppercase basic-latin
letter. -/
theorem toLower_isUpper_eq_false (c : Char) :
    (Char.toLower c).isUpper = false := by
  simp only [Char.toLower]
  split
  next h =>
    obtain ⟨h1, h2⟩ := h
    rcases Nat.exists_eq_add_of_le h1 with ⟨k, hk⟩
    rw [hk] at h2 ⊢
    have hk25 : k ≤ 25 := by omega
    interval_cases k <;> decide
  next h =>
    cases hiu : c.isUpper
    · rfl
    · exfalso
      apply h
      simp only [Char.isUpper, Bool.and_eq_true, decide_eq_true_eq] at hiu
      exact ⟨UInt32.le_toNat_of_le (by decide) hiu.1,
        UInt32.toNat_le_of_le (by decide) hiu.2⟩

/-- Lowercasing fixes every whitespace character. -/
theorem toLower_of_jsWhitespace (c : Char) (h : jsWhitespace c = true) :
    Char.toLower c = c := by
  simp only [jsWhitespace, Bool.or_eq_true, decide_eq_true_eq,
    Bool.and_eq_true] at h
  have hneg : ¬(c.toNat ≥ 65 ∧ c.toNat ≤ 90) := by
    rintro ⟨h1, h2⟩
    rcases h with (((((((((((((h|h)|h)|h)|h)|h)|h)|h)|h)|h)|h)|h)|h)|h)|h
    all_goals try (subst h; revert h1 h2; decide)
    have h3 : (8192 : Nat) ≤ c.toNat := UInt32.le_toNat_of_le (by decide) h.1
    omega
  simp only [Char.toLower]
  exact if_neg hneg

/-- Every character of every token produced by the whitespace split
either came from the accumulator or is a non-whitespace character of
the input. -/
theorem splitWsAux_token_chars :
    ∀ (l cur : List Char) (t : String), t ∈ splitWsAux cur l →
      ∀ ch ∈ t.data, ch ∈ cur ∨ (ch ∈ l ∧ jsWhitespace ch = false) := by
  intro l
  induction l with
  | nil =>
    intro cur t ht ch hch
    simp only [splitWsAux, List.mem_singleton] at ht
    subst ht
    exact Or.inl (List.mem_reverse.mp hch)
  | cons c cs ih =>
    intro cur t ht ch hch
    simp only [splitWsAux] at ht
    by_cases hc : jsWhitespace c = true
    · rw [if_pos hc] at ht
      rcases List.mem_cons.mp ht with rfl | ht2
      · exact Or.inl (List.mem_reverse.mp hch)
      · rcases ih [] t ht2 ch hch with habs | ⟨hl, hns⟩
        · simp at habs
        · exact Or.inr ⟨List.mem_cons.mpr (Or.inr hl), hns⟩
    · rw [if_neg hc] at ht
      have hcf : jsWhitespace c = false := by
        cases hcv : jsWhitespace c
        · rfl
        · exact absurd hcv hc
      rcases ih (c :: cur) t ht ch hch with hcur | ⟨hl, hns⟩
      · rcases List.mem_cons.mp hcur with rfl | h2
        · exact Or.inr ⟨List.mem_cons_self _ _, hcf⟩
        · exact Or.inl h2
      · exact Or.inr ⟨List.mem_cons.mpr (Or.inr hl), hns⟩

/-- On whitespace-only input the split yields only empty tokens. -/
theorem splitWsAux_all_ws :
    ∀ l : List Char, (∀ c ∈ l, jsWhitespace c = true) →
      ∀ t ∈ splitWsAux [] l, t.length = 0 := by
  intro l
  induction l with
  | nil =>
    intro _ t ht
    simp only [splitWsAux, List.mem_singleton] at ht
    subst ht
    rfl
  | cons c cs ih =>
    intro hws t ht
    simp only [splitWsAux] at ht
    rw [if_pos (hws c (List.mem_cons_self _ _))] at ht
    rcases List.mem_cons.mp ht with rfl | ht2
    · rfl
    · exact ih (fun x hx => hws x (List.mem_cons.mpr (Or.inr hx))) t ht2

/-- Claim C6: the tokenizer lowercases, splits on whitespace and keeps
only tokens of length at least 2 — every produced term has length at
least 2 and contains neither uppercase letters nor whitespace, and an
empty or whitespace-only query tokenizes to the empty sequence. -/
theorem c6_tokenizer_properties (query : String) :
    (∀ t ∈ tokenizeQuery query, 2 ≤ t.length ∧
        ∀ ch ∈ t.data, ch.isUpper = false ∧ jsWhitespace ch = false) ∧
    ((∀ ch ∈ query.data, jsWhitespace ch = true) → tokenizeQuery query = []) := by
  constructor
  · intro t ht
    have hmem := List.mem_filter.mp ht
    refine ⟨?_, ?_⟩
    · have := hmem.2
      simp only [decide_eq_true_eq] at this
      omega
    · intro ch hch
      rcases splitWsAux_token_chars (lowerStr query).data [] t hmem.1 ch hch with
        habs | ⟨hl, hns⟩
      · simp at habs
      · refine ⟨?_, hns⟩
        rcases List.mem_map.mp hl with ⟨c0, _, rfl⟩
        exact toLower_isUpper_eq_false c0
  · intro hws
    have hws2 : ∀ c ∈ (lowerStr query).data, jsWhitespace c = true := by
      intro c hc
      rcases List.mem_map.mp hc with ⟨c0, hc0, rfl⟩
      rw [toLower_of_jsWhitespace c0 (hws c0 hc0)]
      exact hws c0 hc0
    unfold tokenizeQuery splitWs
    rw [List.filter_eq_nil_iff]
    intro t ht
    have h0 := splitWsAux_all_ws (lowerStr query).data hws2 t ht
    simp [h0]

/-- Witness for claim C6: the query `" POMODORO x "` yields the single
lowercase, whitespace-free term `"pomodoro"`, and the whitespace-only
query `"   "` yields no terms. -/
theorem c6_witness :
    (2 ≤ ("pomodoro" : String).length ∧
      ∀ ch ∈ ("pomodoro" : String).data,
        ch.isUpper = false ∧ jsWhitespace ch = false) ∧
    tokenizeQuery "   " = [] :=
  ⟨(c6_tokenizer_properties " POMODORO x ").1 "pomodoro" (by decide),
   (c6_tokenizer_properties "   ").2 (by decide)⟩

/-! ## Preference store (`AppState.loadPreferences` / `savePreferences`)

The browser pieces are modeled as explicit fallible inputs:
`localStorage.getItem` may throw (storage disabled) or return `null` or
a string; `JSON.parse` may throw on malformed input;
`localStorage.setItem` may throw (quota exceeded).  A `console.warn`
call is modeled by appending to a warning log.  The embedded handlers
return a plain `AppStateM` — never an exception — which is exactly the
containment property under verification. -/

/-- The preference record persisted under `STORAGE_KEY`
(a `theme` field which may be absent). -/
structure PrefRec where
  theme : Option String := none
deriving DecidableEq

/-- The empty preference record, JS `{}`. -/
def emptyPrefRec : PrefRec := { theme := none }

/-- The modeled slice of the `AppState` object: current theme, the
in-memory preference record, and the log of `console.warn` messages. -/
structure AppStateM where
  theme : String
  preferences : PrefRec
  warnings : List String
deriving DecidableEq

/-- JS `a || b` for a possibly-absent string field (the empty string is
falsy, as is an absent field). -/
def jsOrElse (v : Option String) (dflt : String) : String :=
  match v with
  | some s => if s = "" then dflt else s
  | none => dflt

/-- Embedding of `AppState.loadPreferences()`: the `try` body reads the
stored value, parses it when present and truthy, and derives the theme
(stored theme, else the system theme); the `catch` arm logs a warning
and resets the in-memory preferences to the empty record. -/
def loadPreferences (st : AppStateM) (getItem : Except String (Option String))
    (parseJson : String → Except String PrefRec) (systemTheme : String) :
    AppStateM :=
  match (do
      let saved ← getItem
      match saved with
      | some s => if s = "" then pure emptyPrefRec else parseJson s
      | none => pure emptyPrefRec) with
  | Except.ok prefs =>
      { st with preferences := prefs
                theme := jsOrElse prefs.theme systemTheme }
  | Except.error e =>
      { st with preferences := emptyPrefRec
                warnings := st.warnings ++ ["Could not load preferences: " ++ e] }

/-- Embedding of `AppState.savePreferences()`: the theme is written
into the preference record before the store access, so it is updated
whether or not `setItem` throws; a throw is caught and logged. -/
def savePreferences (st : AppStateM)
    (setItem : PrefRec → Except String Unit) : AppStateM :=
  let prefs := { st.preferences with theme := some st.theme }
  match setItem prefs with
  | Except.ok _ => { st with preferences := prefs }
  | Except.error e =>
      { st with preferences := prefs
                warnings := st.warnings ++ ["Could not save preferences: " ++ e] }

/-- Claim C9: every preference-store failure — storage read throwing,
malformed stored value, storage write throwing — is caught at the point
of access: the handler still returns (no propagation), logs one
warning, and falls back to the in-memory default record. -/
theorem c9_pref_store_failures_contained (st : AppStateM)
    (parseJson : String → Except String PrefRec)
    (setItem : PrefRec → Except String Unit)
    (systemTheme : String) (s e : String) :
    (loadPreferences st (Except.error e) parseJson systemTheme
        = { st with preferences := emptyPrefRec
                    warnings := st.warnings ++ ["Could not load preferences: " ++ e] }) ∧
    (s ≠ "" → parseJson s = Except.error e →
      loadPreferences st (Except.ok (some s)) parseJson systemTheme
        = { st with preferences := emptyPrefRec
                    warnings := st.warnings ++ ["Could not load preferences: " ++ e] }) ∧
    (setItem { st.preferences with theme := some st.theme } = Except.error e →
      savePreferences st setItem
        = { st with preferences := { st.preferences with theme := some st.theme }
                    warnings := st.warnings ++ ["Could not save preferences: " ++ e] }) := by
  refine ⟨rfl, ?_, ?_⟩
  · intro hs hp
    have hred : (do
        let saved ← (Except.ok (some s) : Except String (Option String))
        match saved with
        | some s => if s = "" then pure emptyPrefRec else parseJson s
        | none => pure emptyPrefRec) = Except.error e := by
      show (if s = "" then pure emptyPrefRec else parseJson s) = Except.error e
      rw [if_neg hs]
      exact hp
    simp [loadPreferences, hred]
  · intro hset
    simp [savePreferences, hset]

/-- Witness for claim C9: a disabled store, a malformed stored value,
and a full store, each against a concrete initial state. -/
theorem c9_witness :
    (loadPreferences (AppStateM.mk "light" emptyPrefRec []) (Except.error "SecurityError")
        (fun _ => Except.error "SyntaxError") "light"
      = AppStateM.mk "light" emptyPrefRec ["Could not load preferences: SecurityError"]) ∧
    (loadPreferences (AppStateM.mk "light" emptyPrefRec []) (Except.ok (some "not json"))
        (fun _ => Except.error "SyntaxError") "light"
      = AppStateM.mk "light" emptyPrefRec ["Could not load preferences: SyntaxError"]) ∧
    (savePreferences (AppStateM.mk "dark" emptyPrefRec [])
        (fun _ => Except.error "QuotaExceededError")
      = AppStateM.mk "dark" (PrefRec.mk (some "dark"))
          ["Could not save preferences: QuotaExceededError"]) :=
  ⟨(c9_pref_store_failures_contained (AppStateM.mk "light" emptyPrefRec [])
      (fun _ => Except.error "SyntaxError") (fun _ => Except.error "QuotaExceededError")
      "light" "x" "SecurityError").1,
   (c9_pref_store_failures_contained (AppStateM.mk "light" emptyPrefRec [])
      (fun _ => Except.error "SyntaxError") (fun _ => Except.error "QuotaExceededError")
      "light" "not json" "SyntaxError").2.1 (by decide) rfl,
   (c9_pref_store_failures_contained (AppStateM.mk "dark" emptyPrefRec [])
      (fun _ => Except.error "SyntaxError") (fun _ => Except.error "QuotaExceededError")
      "light" "x" "QuotaExceededError").2.2 rfl⟩

/-! ## Result highlighter (`SearchHandler.highlightText`) -/

/-- The metacharacter class of the escaping replace:
`[.*+?^$\x7b\x7d()|[\]\\]`. -/
def isRegexMeta (c : Char) : Bool :=
  c = '.' || c = '*' || c = '+' || c = '?' || c = '^' || c = '$' ||
  c = '\x7b' || c = '\x7d' || c = '(' || c = ')' || c = '|' ||
  c = '[' || c = ']' || c = '\\'

/-- Embedding of the escaping replace: every metacharacter is prefixed
with a backslash (`'\\$&'`). -/
def escapeRegexChars : List Char → List Char
  | [] => []
  | c :: rest =>
    (if isRegexMeta c then ['\\', c] else [c]) ++ escapeRegexChars rest

/-- Compiler for the regex fragment `highlightText` builds out of an
escaped term: a sequence of plain characters and backslash escapes,
matched literally.  `none` models the `SyntaxError` the `RegExp`
constructor throws on a malformed pattern (bare metacharacter or
dangling backslash). -/
def compileLiteralPattern : List Char → Option (List Char)
  | [] => some []
  | c :: rest =>
    if c = '\\' then
      match rest with
      | [] => none
      | d :: rest2 => (compileLiteralPattern rest2).map (fun l => d :: l)
    else if isRegexMeta c then none
    else (compileLiteralPattern rest).map (fun l => c :: l)

/-- Embedding of `Helpers.escapeHtml` (Text-node serialization escapes
the characters significant to HTML). -/
def escapeHtml (s : String) : String :=
  ⟨(s.data.map (fun c =>
      if c = '&' then "&amp;".data
      else if c = '<' then "&lt;".data
      else if c = '>' then "&gt;".data
      else [c])).flatten⟩

/-- Global case-insensitive replacement of the literal pattern `lit`
with `<mark>$1</mark>` (the `'gi'`-flagged `replace`), structured on a
length fuel. -/
def markWrap (lit : List Char) : Nat → List Char → List Char
  | 0, text => text
  | _ + 1, [] => []
  | fuel + 1, c :: rest =>
    if lit ≠ [] ∧ lit.isPrefixOf ((c :: rest).map Char.toLower) then
      "<mark>".data ++ (c :: rest).take lit.length ++ "</mark>".data ++
        markWrap lit fuel ((c :: rest).drop lit.length)
    else c :: markWrap lit fuel rest

/-- One full replacement pass over a text. -/
def markReplaceAll (lit text : List Char) : List Char :=
  markWrap lit text.length text

/-- The `terms.forEach` of `highlightText`: compile each escaped term
and rewrite the accumulated text; a failed compile is the thrown
`SyntaxError`. -/
def highlightLoop : List String → List Char → Except String (List Char)
  | [], acc => Except.ok acc
  | term :: rest, acc =>
    match compileLiteralPattern (escapeRegexChars term.data) with
    | none => Except.error "SyntaxError: invalid regular expression"
    | some lit => highlightLoop rest (markWrap lit acc.length acc)

/-- Embedding of `SearchHandler.highlightText(text, query)`. -/
def highlightText (text query : String) : Except String String :=
  match highlightLoop (tokenizeQuery query) (escapeHtml text).data with
  | Except.ok l => Except.ok ⟨l⟩
  | Except.error e => Except.error e

/-- An escaped term always compiles, to the literal term itself. -/
theorem compileLiteralPattern_escape (l : List Char) :
    compileLiteralPattern (escapeRegexChars l) = some l := by
  induction l with
  | nil => rfl
  | cons c rest ih =>
    by_cases h : isRegexMeta c = true
    · have he : escapeRegexChars (c :: rest) = '\\' :: c :: escapeRegexChars rest := by
        simp [escapeRegexChars, h]
      rw [he]
      simp [compileLiteralPattern, ih]
    · have hne : ¬(c = '\\') := by
        rintro rfl
        simp [isRegexMeta] at h
      have he : escapeRegexChars (c :: rest) = c :: escapeRegexChars rest := by
        simp [escapeRegexChars, h]
      rw [he]
      cases hE : escapeRegexChars rest with
      | nil =>
        have hrest : rest = [] := by
          rw [hE] at ih
          simpa [compileLiteralPattern] using ih.symm
        subst hrest
        simp [compileLiteralPattern, hne, h]
      | cons e es =>
        rw [hE] at ih
        simp [compileLiteralPattern, hne, h, ih]

/-- Claim C10: `highlightText` never throws — every query term is
escaped before being compiled, the escaped pattern always compiles, and
it matches the term literally. -/
theorem c10_highlight_never_throws :
    (∀ text query : String, ∃ s, highlightText text query = Except.ok s) ∧
    (∀ term : List Char,
      compileLiteralPattern (escapeRegexChars term) = some term) := by
  constructor
  · intro text query
    have hloop : ∀ (terms : List String) (acc : List Char),
        ∃ l, highlightLoop terms acc = Except.ok l := by
      intro terms
      induction terms with
      | nil => intro acc; exact ⟨acc, rfl⟩
      | cons t rest ih =>
        intro acc
        rcases ih (markWrap t.data acc.length acc) with ⟨l, hl⟩
        refine ⟨l, ?_⟩
        show (match compileLiteralPattern (escapeRegexChars t.data) with
          | none => Except.error "SyntaxError: invalid regular expression"
          | some lit => highlightLoop rest (markWrap lit acc.length acc)) = Except.ok l
        rw [compileLiteralPattern_escape]
        exact hl
    rcases hloop (tokenizeQuery query) (escapeHtml text).data with ⟨l, hl⟩
    refine ⟨⟨l⟩, ?_⟩
    show (match highlightLoop (tokenizeQuery query) (escapeHtml text).data with
      | Except.ok l => Except.ok (String.mk l)
      | Except.error e => Except.error e) = Except.ok (String.mk l)
    rw [hl]
  · exact compileLiteralPattern_escape
